import Mathlib

/-!
Shallow embedding of the game-orchestration core of the ai-racer
repository, together with theorems settling the frozen claims about it.

The repository contains two parallel implementations of the engine:
the Convex backend (`src/convex/games.ts`) and the newer server-action
backend (`src/src/lib/games/actions.ts` plus its query helpers).  Both
are embedded below, in the namespaces `Convex` and `Actions`.
-/

namespace AiRacer

/-- JSON-like values exchanged between the store, the players and the
code-execution collaborator (test-case arguments, expected outputs and
run results are such values). -/
inductive Val where
  | vnum : Int → Val
  | vstr : String → Val
  | vbool : Bool → Val
  | vnull : Val
  | varr : List Val → Val

mutual

/-- Deep structural equality on JSON-like values: the semantics of the
`dequal` library used by `submitCodeAction` in
`src/src/lib/games/actions.ts`. -/
def deepEq : Val → Val → Bool
  | .vnum a, .vnum b => a == b
  | .vstr a, .vstr b => a == b
  | .vbool a, .vbool b => a == b
  | .vnull, .vnull => true
  | .varr a, .varr b => deepEqList a b
  | _, _ => false

/-- Elementwise deep equality on arrays of JSON-like values. -/
def deepEqList : List Val → List Val → Bool
  | [], [] => true
  | x :: xs, y :: ys => deepEq x y && deepEqList xs ys
  | _, _ => false

end

/-- JavaScript strict equality `===` as it applies in the grading step of
`runTests` (`src/convex/games.ts`): primitives compare by value; an
array (or any object) compares by reference.  The two values compared
there always come from independent deserialisations (the expected value
from the database document, the actual value from the execution
collaborator's response), so two composite values are never the same
reference and `===` on them is `false`. -/
def jsStrictEq : Val → Val → Bool
  | .vnum a, .vnum b => a == b
  | .vstr a, .vstr b => a == b
  | .vbool a, .vbool b => a == b
  | .vnull, .vnull => true
  | _, _ => false

mutual

/-- JSON.stringify on the embedded values, as used to build the
AssertionError message in `runTests` (`src/convex/games.ts`). -/
def jsonStringify : Val → String
  | .vnum a => toString a
  | .vstr s => "\"" ++ s ++ "\""
  | .vbool b => if b then "true" else "false"
  | .vnull => "null"
  | .varr xs => "[" ++ String.intercalate "," (jsonStringifyList xs) ++ "]"

/-- Stringification of each element of an array value. -/
def jsonStringifyList : List Val → List String
  | [] => []
  | x :: xs => jsonStringify x :: jsonStringifyList xs

end

/-- A test case as stored in the Convex game document
(`game.question.test_cases`): argument list and expected output. -/
structure TestCase where
  args : List Val
  expected : Val

/-- The error payload of a per-case execution result
(`{name, message}` in the `CodeRunResult` schema). -/
structure ErrReason where
  name : String
  message : String

/-- Per-case result returned by the code-execution collaborator
(`runPythonCode` / `runPythonCodeAgainstTestCases`): either
`{status: success, result}` or `{status: error, reason}`. -/
inductive ExecResult where
  | success : Val → ExecResult
  | error : ErrReason → ExecResult

namespace Convex

/-- Grading of a single case in `runTests` (`src/convex/games.ts`,
lines 689-712): a success result is compared against the expected value
with JavaScript `===`; on mismatch it is replaced by an error with
reason name `AssertionError` and a message carrying the stringified
expected and actual values; an execution-level error is returned
unchanged. -/
def checkResult (tc : TestCase) (r : ExecResult) : ExecResult :=
  match r with
  | .success v =>
      if jsStrictEq v tc.expected then
        .success v
      else
        .error ⟨"AssertionError",
          "Expected " ++ jsonStringify tc.expected ++ " but got " ++ jsonStringify v⟩
  | .error e => .error e

/-- The full grading pass of `runTests`: the raw results are mapped in
order, each checked against the test case at the same index (the code
indexes `game.question.test_cases[i]!` while mapping over `rawResults`;
the two lists have equal length since the collaborator preserves input
order). -/
def runTestsGrade (tcs : List TestCase) (rs : List ExecResult) : List ExecResult :=
  (rs.zip tcs).map fun p => checkResult p.2 p.1

end Convex

namespace Actions

/-- Visibility tag of a question test case in the drizzle schema
(`questionTestCases.type`). -/
inductive CaseType where
  | publicCase
  | hiddenCase
deriving DecidableEq

/-- A question test case row as fetched by `submitCodeAction`:
visibility type, argument list and expected output. -/
structure QTestCase where
  ctype : CaseType
  args : List Val
  expectedOutput : Val

/-- Test-case selection in `submitCodeAction`
(`src/src/lib/games/actions.ts`, lines 320-339): the `testCases`
relation is fetched with `where: type = public` when
`submission_type === "test-run"` and with no filter (`undefined`)
otherwise; the zod schema restricts `submission_type` to
`"test-run"` or `"submission"`. -/
def selectTestCases (submissionType : String) (cases : List QTestCase) : List QTestCase :=
  if submissionType = "test-run" then
    cases.filter (fun c => c.ctype = CaseType.publicCase)
  else cases

/-- The argument lists dispatched to the execution collaborator:
`runPythonCodeAgainstTestCases(code, testCases.map(tc => tc.args))`. -/
def dispatchedArgs (submissionType : String) (cases : List QTestCase) : List (List Val) :=
  (selectTestCases submissionType cases).map (fun c => c.args)

/-- One row of `playerGameSubmissionStateResults` as built by
`submitCodeAction` (lines 418-446). -/
structure SubmissionResultDoc where
  status : String
  result : Option Val
  reason : Option String
  is_correct : Bool

/-- Grading of one case in `submitCodeAction`: a missing result row
becomes an error with reason `Failed to run code`; otherwise the status
is copied from the execution result, the reason (for errors) is the
collaborator's message, and `is_correct` is
`result.status === "success" && dequal(testCase.expectedOutput, result.result)`.
The status is never rewritten on an expected/actual mismatch. -/
def gradeCase (tc : QTestCase) (r : Option ExecResult) : SubmissionResultDoc :=
  match r with
  | none =>
      { status := "error", result := none, reason := some "Failed to run code",
        is_correct := false }
  | some (.success v) =>
      { status := "success", result := some v, reason := none,
        is_correct := deepEq tc.expectedOutput v }
  | some (.error e) =>
      { status := "error", result := none, reason := some e.message,
        is_correct := false }

/-- The full grading pass of `submitCodeAction`: `testCases.map` with
`runResults[index]` looked up per position (possibly absent). -/
def gradeAll (tcs : List QTestCase) (rs : List ExecResult) : List SubmissionResultDoc :=
  (List.range tcs.length).zip tcs |>.map fun p => gradeCase p.2 (rs.get? p.1)

end Actions

/-- The error kinds thrown by the player-facing operations.  Each
constructor stands for one `throw new Error(...)` site; `rateLimited`
carries the numeric remaining-wait value embedded in the thrown message
(in the unit used at that site: whole seconds for the Convex messages,
milliseconds for the server-action messages). -/
inductive Err where
  | alreadyInGame
  | gameNotFound
  | playerNotFound
  | gameNotInProgress
  | conflictPendingAI
  | rateLimited : Int → Err
  | validationFailed
  | forbidden
  | invalidState
deriving DecidableEq

namespace Convex

/-- Lifecycle state of a Convex game document (`game.state`). -/
inductive GState where
  | waitingForPlayers
  | inProgress
  | finished
  | cancelled
deriving DecidableEq

/-- The question snapshot embedded in a Convex game document at creation
(`createNewGame`): it keeps the full `test_cases` list of the source
question and adds `examples`, the leading public slice
(`test_cases.slice(0, floor(0.4 * length))`). -/
structure Question where
  description : String
  starter_code : String
  test_cases : List TestCase
  examples : List TestCase

/-- A Convex game document. -/
structure Game where
  id : Nat
  creatorId : String
  state : GState
  question : Question

/-- The question as seen in a player-visible game payload: the
`test_cases` field is optional because `removeGameDetailsBasedOnState`
deletes it (`none`) for unfinished games. -/
structure VisibleQuestion where
  description : String
  starter_code : String
  test_cases : Option (List TestCase)
  examples : List TestCase

/-- A player-visible game payload. -/
structure VisibleGame where
  id : Nat
  creatorId : String
  state : GState
  question : VisibleQuestion

/-- A game document passed through unchanged into a payload (the
`test_cases` field still present). -/
def rawView (g : Game) : VisibleGame :=
  { id := g.id, creatorId := g.creatorId, state := g.state,
    question := { description := g.question.description,
                  starter_code := g.question.starter_code,
                  test_cases := some g.question.test_cases,
                  examples := g.question.examples } }

/-- The helper of `src/convex/games.ts` (lines 36-45): for a game whose
state is not `finished` it destructures `test_cases` out of the question
and returns the rest; a finished game is returned whole. -/
def removeGameDetailsBasedOnState (g : Game) : VisibleGame :=
  if g.state ≠ GState.finished then
    { rawView g with question := { (rawView g).question with test_cases := none } }
  else
    rawView g

/-- The `getGame` query: point lookup by id, then
`removeGameDetailsBasedOnState`. -/
def getGame (games : List Game) (gameId : Nat) : Option VisibleGame :=
  (games.find? (fun g => g.id = gameId)).map removeGameDetailsBasedOnState

/-- The `getWaitingGames` query (lines 241-251): filters the game table
to `state == "waiting-for-players"`, orders descending and takes 20 —
and returns the documents raw, without `removeGameDetailsBasedOnState`.
The descending order only permutes the list (the input is taken to be in
descending creation order), so it is not modelled separately. -/
def getWaitingGames (games : List Game) : List VisibleGame :=
  ((games.filter (fun g => g.state = GState.waitingForPlayers)).take 20).map rawView

/-- The game component of the `getGameInfoForUser` payload (lines
481-519): the game document is looked up by id and placed in the
returned record raw, in every state.  (The player-info components of the
payload carry no question data and are not modelled.) -/
def getGameInfoForUser (games : List Game) (gameId : Nat) : Option VisibleGame :=
  (games.find? (fun g => g.id = gameId)).map rawView

/-- The `advanceGameState` handler (lines 155-177) acting on the store
restricted to its target game: a missing game is left alone;
`waiting-for-players` moves to `in-progress` and schedules a further
advance (the boolean component); `in-progress` moves to `finished`; any
other state falls through both branches and nothing is written. -/
def advanceGameState : Option Game → Option Game × Bool
  | none => (none, false)
  | some g =>
      match g.state with
      | GState.waitingForPlayers => (some { g with state := GState.inProgress }, true)
      | GState.inProgress => (some { g with state := GState.finished }, false)
      | GState.finished => (some g, false)
      | GState.cancelled => (some g, false)

/-- The parse status nested in an AI chat turn
(`chatHistoryItem.parsed`): `generating` with a live `maybeCode`
preview, `success` with the extracted code, or `error` with the error
message (the `raw` payload is elided). -/
inductive Parsed where
  | generating : String → Parsed
  | success : String → Parsed
  | error : String → Parsed
deriving DecidableEq

/-- One entry of a session's `chatHistory`: a user turn with its content
or an AI turn with its content and parse status. -/
inductive ChatMessage where
  | user : String → ChatMessage
  | ai : String → Parsed → ChatMessage
deriving DecidableEq

/-- A `playerGameInfo` document (one player's session in one game). -/
structure PlayerGameInfo where
  userId : String
  gameId : Nat
  code : String
  chatHistory : List ChatMessage
  lastPromptedAt : Option Int
  lastTestedAt : Option Int

/-- The Convex store as the claims need it: the game table and the
`playerGameInfo` table, the latter listed most-recent-insertion first
(so that `.order("desc").take(1)` is `head?` of a filter). -/
structure Store where
  games : List Game
  sessions : List PlayerGameInfo

/-- Point lookup of a game by id (`ctx.db.get`). -/
def findGame (games : List Game) (gameId : Nat) : Option Game :=
  games.find? (fun g => g.id = gameId)

/-- Whether a state is terminal (`finished` or `cancelled`). -/
def isTerminal : GState → Bool
  | GState.finished => true
  | GState.cancelled => true
  | _ => false

/-- The helper `_getLatestActiveGameForUser` (lines 47-70): takes the
single most recent `playerGameInfo` row of the user, loads its game, and
returns `none` when there is no row, the game is gone, or its state is
`finished` or `cancelled`; otherwise the stripped game. -/
def getLatestActiveGameForUser (st : Store) (userId : String) : Option VisibleGame :=
  match (st.sessions.filter (fun s => s.userId = userId)).head? with
  | none => none
  | some s =>
      match findGame st.games s.gameId with
      | none => none
      | some g =>
          if isTerminal g.state then none else some (removeGameDetailsBasedOnState g)

/-- The starter code hardcoded in `joinGame`. -/
def startingCode : String := "def solution(numbers, target):\n    ..."

/-- The `joinGame` action (lines 253-290): fails when
`getLatestActiveGameForUser` returns a game; otherwise picks one of the
waiting games at the random index `choice` (or, when there is none, the
freshly created game `fresh`, whose creation is modelled by the caller
supplying it) and inserts a `playerGameInfo` row for it via
`createPlayerInfoForGame` (state `playing`, the hardcoded starter code,
empty chat history). -/
def joinGame (st : Store) (userId : String) (choice : Nat) (fresh : Game) :
    Except Err Store :=
  if (getLatestActiveGameForUser st userId).isSome then
    Except.error Err.alreadyInGame
  else
    let gameToJoin := ((getWaitingGames st.games).get? choice).getD (rawView fresh)
    Except.ok
      { st with
        sessions :=
          { userId := userId, gameId := gameToJoin.id, code := startingCode,
            chatHistory := [], lastPromptedAt := none, lastTestedAt := none }
            :: st.sessions }

/-- The prompt/test cooldown `GAME_TIMINGS_MS.promptRateLimitTime`
(`ms("10s")`), in milliseconds; both `sendMessageForPlayerInGame` and
`runTests` gate on this same constant. -/
def promptRateLimitTimeMs : Int := 10000

/-- The rate-limit predicate shared (textually) by
`sendMessageForPlayerInGame` (lines 388-398) and `runTests` (lines
653-661): the action is allowed when there is no recorded timestamp, or
`isAfter(now, nextAt) || isEqual(now, nextAt)` where
`nextAt = lastAt + promptRateLimitTime`. -/
def canActFromTimestamp (lastAt : Option Int) (now : Int) : Bool :=
  match lastAt with
  | none => true
  | some l => decide (now > l + promptRateLimitTimeMs) || decide (now = l + promptRateLimitTimeMs)

/-- The seconds component of date-fns
`intervalToDuration({start, end})`, which both rejection messages render
through `formatDuration(..., {format: ["seconds"]})`: the full seconds
of the interval, modulo the minute carried out of the seconds place. -/
def intervalSeconds (startMs endMs : Int) : Int :=
  ((endMs - startMs) / 1000) % 60

/-- Conflict check of `sendMessageForPlayerInGame` (lines 382-386): the
last chat turn is a user turn, or an AI turn still `generating`. -/
def conflictPending (history : List ChatMessage) : Bool :=
  match history.getLast? with
  | none => false
  | some (ChatMessage.user _) => true
  | some (ChatMessage.ai _ p) =>
      match p with
      | Parsed.generating _ => true
      | _ => false

/-- The session mutations produced by a successful
`sendMessageForPlayerInGame`: the appended chat history and the stamped
`lastPromptedAt`. -/
structure SendOutcome where
  chatHistory : List ChatMessage
  lastPromptedAt : Option Int
deriving DecidableEq

/-- The `sendMessageForPlayerInGame` action (lines 356-448) as a
function of the loaded game and session: game and session must exist;
then the conflict check; then the combined rate-limit / in-progress
check, whose failure throws the rate-limit message (carrying the
remaining wait as rendered by `intervalSeconds`) when the rate limit
failed and the not-in-progress message otherwise.  On success it
appends the user turn and the `generating` placeholder AI turn and
stamps `lastPromptedAt = now`. -/
def sendMessageForPlayerInGame (gameOpt : Option Game) (infoOpt : Option PlayerGameInfo)
    (message : String) (now : Int) : Except Err SendOutcome :=
  match gameOpt with
  | none => Except.error Err.gameNotFound
  | some game =>
      match infoOpt with
      | none => Except.error Err.playerNotFound
      | some info =>
          if conflictPending info.chatHistory then
            Except.error Err.conflictPendingAI
          else
            let canPromptBasedOnRateLimit := canActFromTimestamp info.lastPromptedAt now
            let canPromptBasedOnState := decide (game.state = GState.inProgress)
            if canPromptBasedOnRateLimit && canPromptBasedOnState then
              Except.ok
                { chatHistory :=
                    info.chatHistory ++
                      [ChatMessage.user message,
                       ChatMessage.ai "Generating..." (Parsed.generating "")],
                  lastPromptedAt := some now }
            else if !canPromptBasedOnRateLimit then
              Except.error
                (Err.rateLimited
                  (intervalSeconds now (info.lastPromptedAt.getD 0 + promptRateLimitTimeMs)))
            else
              Except.error Err.gameNotInProgress

/-- The rate-limit gate of `runTests` (lines 653-673): allowed per
`canActFromTimestamp` against `lastTestedAt`; rejection throws the
message carrying the remaining wait as rendered by `intervalSeconds`. -/
def runTestsRateGate (lastTestedAt : Option Int) (now : Int) : Except Err Unit :=
  if canActFromTimestamp lastTestedAt now then
    Except.ok ()
  else
    Except.error
      (Err.rateLimited (intervalSeconds now (lastTestedAt.getD 0 + promptRateLimitTimeMs)))

end Convex

namespace Actions

/-- Lifecycle status of a `gameStates` row in the drizzle schema. -/
inductive Status where
  | waitingForPlayers
  | inProgress
  | finished
  | cancelled
deriving DecidableEq

/-- A `gameStates` row as the claims need it. -/
structure GameRow where
  id : Nat
  status : Status

/-- A `playerGameSessions` row as the claims need it (the chat history
lives in its own table and is modelled inline, ordered by
`inserted_at` ascending). -/
structure SessionRow where
  userId : String
  gameId : Nat

/-- The drizzle store as the matchmaking claims need it. -/
structure Store where
  games : List GameRow
  sessions : List SessionRow

/-- Point lookup of a game row by id. -/
def findGame (games : List GameRow) (gameId : Nat) : Option GameRow :=
  games.find? (fun g => g.id = gameId)

/-- One row of the inner join behind `getLatestActiveGameForUser` of
the server-action backend (`src/src/lib/games/queries.ts`): the session
paired with its game when the session belongs to the user, the game row
exists (inner join), and the game status is not in
`[cancelled, finished]`. -/
def activeJoinRow (games : List GameRow) (userId : String) (s : SessionRow) :
    Option (SessionRow × GameRow) :=
  if s.userId = userId then
    match findGame games s.gameId with
    | some g =>
        if g.status ≠ Status.cancelled ∧ g.status ≠ Status.finished then
          some (s, g)
        else none
    | none => none
  else none

/-- The query `getLatestActiveGameForUser` of the server-action backend:
the user's sessions inner-joined with their games, filtered to
`status notInArray [cancelled, finished]`, ordered by game start time
descending, first row taken.  Only presence or absence of a row matters
to the claims, so the ordering is not modelled. -/
def getLatestActiveGameForUser (st : Store) (userId : String) :
    Option (SessionRow × GameRow) :=
  (st.sessions.filterMap (activeJoinRow st.games userId)).head?

/-- The `joinGameAction` server action (lines 79-98): fails when
`getLatestActiveGameForUser` finds a row; otherwise inserts a
`playerGameSessions` row for the game found or created by
`getOrCreateGameToJoin` (modelled by the caller supplying it). -/
def joinGameAction (st : Store) (userId : String) (gameToJoin : GameRow) :
    Except Err Store :=
  if (getLatestActiveGameForUser st userId).isSome then
    Except.error Err.alreadyInGame
  else
    Except.ok { st with sessions := { userId := userId, gameId := gameToJoin.id } :: st.sessions }

/-- The parsed completion nested in an AI chat-history item of the
drizzle schema. -/
inductive ParsedCompletion where
  | generating : String → ParsedCompletion
  | success : String → ParsedCompletion
  | error : String → ParsedCompletion
deriving DecidableEq

/-- One `playerGameSessionChatHistoryItems` content value: player
instructions, or an AI item with raw completion and parsed state. -/
inductive ChatItem where
  | instructions : String → ChatItem
  | ai : String → ParsedCompletion → ChatItem
deriving DecidableEq

/-- A `playerGameSessions` row joined with its game and chat history, as
loaded at the top of `sendMessageInGameAction`. -/
structure Session where
  userId : String
  gameId : Nat
  code : String
  chatHistory : List ChatItem
  lastPromptedAt : Option Int

/-- The zod schema of `sendMessageInGameAction`
(`instructions: z.string().min(1).max(40)`), as a predicate on the
instruction length.  (JavaScript measures UTF-16 code units and this
embedding counts characters; the two agree on basic-plane text.) -/
def instructionsValid (instructions : String) : Bool :=
  decide (1 ≤ instructions.length) && decide (instructions.length ≤ 40)

/-- The session mutations produced by a successful
`sendMessageInGameAction` up to the point the generation collaborator is
invoked: the chat history with the instruction item and the
`generating` placeholder AI item appended, and the stamped
`last_prompted_at`. -/
structure SendOutcome where
  chatHistory : List ChatItem
  lastPromptedAt : Option Int
deriving DecidableEq

/-- The `sendMessageInGameAction` server action (lines 179-305) up to
the collaborator call: schema validation of the instructions first (it
runs before the action body touches anything), then the session lookup,
the in-progress check, and the prompt rate limit (rejection message
carries `LLM_PROMPTING_TIMEOUT - msSinceLastPrompt` milliseconds).
There is no check of the last chat item: the instruction and
placeholder items are appended regardless of the history.  The
`timeout` parameter is `LLM_PROMPTING_TIMEOUT` from
`src/src/lib/games/constants.ts` (a file not in this excerpt); every
theorem below holds for each of its possible values. -/
def sendMessageInGameAction (instructions : String)
    (sessionOpt : Option (Session × Status)) (now timeout : Int) :
    Except Err SendOutcome :=
  if !instructionsValid instructions then
    Except.error Err.validationFailed
  else
    match sessionOpt with
    | none => Except.error Err.playerNotFound
    | some (session, status) =>
        if status ≠ Status.inProgress then
          Except.error Err.gameNotInProgress
        else
          match session.lastPromptedAt with
          | some l =>
              if now - l < timeout then
                Except.error (Err.rateLimited (timeout - (now - l)))
              else
                Except.ok
                  { chatHistory :=
                      session.chatHistory ++
                        [ChatItem.instructions instructions,
                         ChatItem.ai "" (ParsedCompletion.generating "")],
                    lastPromptedAt := some now }
          | none =>
              Except.ok
                { chatHistory :=
                    session.chatHistory ++
                      [ChatItem.instructions instructions,
                       ChatItem.ai "" (ParsedCompletion.generating "")],
                  lastPromptedAt := some now }

/-- The rate-limit gate of `submitCodeAction` (lines 349-363): when the
mode's submission state exists, reject while
`now - last_submitted_at < CODE_SUBMISSION_TIMEOUT`, with the message
carrying `CODE_SUBMISSION_TIMEOUT - msSinceLastSubmitted` milliseconds;
a session without a prior state row for the mode passes. -/
def submitCodeRateGate (lastSubmittedAt : Option Int) (now timeout : Int) :
    Except Err Unit :=
  match lastSubmittedAt with
  | none => Except.ok ()
  | some l =>
      if now - l < timeout then
        Except.error (Err.rateLimited (timeout - (now - l)))
      else
        Except.ok ()

end Actions

namespace Convex

/-- Whether `pat` occurs at the start of `s`. -/
def strStartsWith : List Char → List Char → Bool
  | _, [] => true
  | [], _ :: _ => false
  | c :: cs, p :: ps => c = p && strStartsWith cs ps

/-- JavaScript `String.prototype.indexOf`: the index of the first
occurrence of `pat` in `s`, or `none` for the sentinel `-1`. -/
def strIndexOf (pat : List Char) : List Char → Option Nat
  | [] => if strStartsWith [] pat then some 0 else none
  | c :: t =>
      if strStartsWith (c :: t) pat then some 0
      else (strIndexOf pat t).map (· + 1)

/-- JavaScript `String.prototype.slice` restricted to the use in
`extractCode`: a non-negative start, and either an explicit
non-negative end or `undefined` (slice to the end).  An end at or
before the start yields the empty string. -/
def jsSlice (s : List Char) (start : Nat) (endIdx : Option Nat) : List Char :=
  match endIdx with
  | none => s.drop start
  | some e => (s.take e).drop start

/-- ASCII whitespace, the fragment of JavaScript
`String.prototype.trim`'s whitespace class exercised here. -/
def isWhite (c : Char) : Bool :=
  c = ' ' || c = '\n' || c = '\t' || c = '\r'

/-- JavaScript `String.prototype.trim` over ASCII whitespace. -/
def trimChars (s : List Char) : List Char :=
  (((s.dropWhile isWhite).reverse).dropWhile isWhite).reverse

/-- The opening code marker. -/
def openTag : List Char := "<code>".data

/-- The closing code marker. -/
def closeTag : List Char := "</code>".data

/-- The `extractCode` helper inside `setAgentMessageForPlayerInGame`
(`src/convex/games.ts`, lines 553-568): the index of the first
`<code>` in the whole content (none means no extracted code) and the
index of the first `</code>` in the whole content (not merely after the
opening tag; `-1` becomes `undefined`, slicing to the end), then
`content.slice(openingTagIndex + "<code>".length, closingTagIndex).trim()`. -/
def extractCode (content : List Char) : Option (List Char) :=
  match strIndexOf openTag content with
  | none => none
  | some openingTagIndex =>
      some (trimChars
        (jsSlice content (openingTagIndex + openTag.length) (strIndexOf closeTag content)))

/-- Resolution of the placeholder AI turn on a `success` signal in
`setAgentMessageForPlayerInGame` (lines 576-592): no extracted code
turns the parse status into an error (`Could not find code in AI
response`); otherwise a success status carrying the extracted code. -/
def resolveSuccessSignal (message : List Char) : Parsed :=
  match extractCode message with
  | none => Parsed.error "Could not find code in AI response"
  | some code => Parsed.success (String.mk code)

/-- The `patchGameState` mutation (`ctx.db.patch(gameId, {state})`):
rewrites the state of the game document with the given id. -/
def patchGameState (games : List Game) (gameId : Nat) (state : GState) : List Game :=
  games.map (fun g => if g.id = gameId then { g with state := state } else g)

/-- The `advanceGameState` handler acting on the whole store (the same
handler as `advanceGameState` above, here with the game table explicit
so that its effect on other games and on the sessions is visible):
missing game or terminal state leaves the store untouched;
`waiting-for-players` is patched to `in-progress` (scheduling the next
advance, the boolean); `in-progress` is patched to `finished`. -/
def advanceStore (st : Store) (gameId : Nat) : Store × Bool :=
  match findGame st.games gameId with
  | none => (st, false)
  | some g =>
      match g.state with
      | GState.waitingForPlayers =>
          ({ st with games := patchGameState st.games gameId GState.inProgress }, true)
      | GState.inProgress =>
          ({ st with games := patchGameState st.games gameId GState.finished }, false)
      | _ => (st, false)

/-- The `cancelGame` mutation (lines 214-239): not-found, only the
creator may cancel, only while waiting for players; otherwise the state
is patched to `cancelled`. -/
def cancelGame (st : Store) (gameId : Nat) (userId : String) : Except Err Store :=
  match findGame st.games gameId with
  | none => Except.error Err.gameNotFound
  | some g =>
      if g.creatorId ≠ userId then Except.error Err.forbidden
      else if g.state ≠ GState.waitingForPlayers then Except.error Err.invalidState
      else Except.ok { st with games := patchGameState st.games gameId GState.cancelled }

/-- The `leaveGame` mutation (lines 326-354): deletes the caller's
`playerGameInfo` row for the game (error when there is none); when no
session of the game remains, deletes the game document as well. -/
def leaveGame (st : Store) (gameId : Nat) (userId : String) : Except Err Store :=
  match st.sessions.find? (fun s => s.userId = userId ∧ s.gameId = gameId) with
  | none => Except.error Err.playerNotFound
  | some _ =>
      let sessions2 := st.sessions.eraseP (fun s => s.userId = userId ∧ s.gameId = gameId)
      if (sessions2.filter (fun s => s.gameId = gameId)).isEmpty then
        Except.ok { games := st.games.filter (fun g => ¬ g.id = gameId),
                    sessions := sessions2 }
      else
        Except.ok { st with sessions := sessions2 }

/-- A session that cannot block a future join: every game row its
`gameId` resolves to (there is none when the game was deleted) is in a
terminal state. -/
def sessionInert (st : Store) (s : PlayerGameInfo) : Prop :=
  ∀ g, findGame st.games s.gameId = some g → isTerminal g.state = true

/-- The recency invariant of the Convex matchmaking: for every user,
every session except the most recent one is inert, so the single
most-recent-session check of `_getLatestActiveGameForUser` sees every
possibly-active game. -/
def RecencyInv (st : Store) : Prop :=
  ∀ u : String, ∀ s ∈ (st.sessions.filter (fun x => x.userId = u)).tail,
    sessionInert st s

end Convex

/-- The public example test case of the C1 scenario. -/
def c1PublicCase : TestCase := ⟨[Val.vnum 1, Val.vnum 2], Val.vnum 3⟩

/-- The hidden test case of the C1 scenario: it sits past the
`examples` slice of the question, so it must stay invisible until the
game finishes. -/
def c1HiddenCase : TestCase := ⟨[Val.vnum 4, Val.vnum 5], Val.vnum 9⟩

/-- A game still waiting for players whose question holds one public
example and one hidden test case. -/
def c1Game : Convex.Game :=
  { id := 1, creatorId := "alice", state := Convex.GState.waitingForPlayers,
    question :=
      { description := "sum two numbers", starter_code := Convex.startingCode,
        test_cases := [c1PublicCase, c1HiddenCase], examples := [c1PublicCase] } }

/-- A test case whose expected output is the number 4, with a hidden
visibility tag, for the C2 scenario. -/
def c2Case : Actions.QTestCase :=
  ⟨Actions.CaseType.hiddenCase, [Val.vnum 1, Val.vnum 3], Val.vnum 4⟩

/-- A finished game for the C5 witness. -/
def c5Game : Convex.Game :=
  { id := 7, creatorId := "bob", state := Convex.GState.finished,
    question :=
      { description := "q", starter_code := "s", test_cases := [], examples := [] } }

/-- An empty question for the C4 witness games. -/
def c4qEmpty : Convex.Question :=
  { description := "q", starter_code := "s", test_cases := [], examples := [] }

/-- A finished Convex game for the C4 witness. -/
def c4DoneGame : Convex.Game :=
  { id := 2, creatorId := "dana", state := Convex.GState.finished, question := c4qEmpty }

/-- An in-progress Convex game for the C4 witness. -/
def c4LiveGame : Convex.Game :=
  { id := 3, creatorId := "dana", state := Convex.GState.inProgress, question := c4qEmpty }

/-- A session of player u1 in the given game, for the C4 witness. -/
def c4Session (gid : Nat) : Convex.PlayerGameInfo :=
  { userId := "u1", gameId := gid, code := "", chatHistory := [],
    lastPromptedAt := none, lastTestedAt := none }

/-- A store in which u1's only session points at the finished game. -/
def c4StoreDone : Convex.Store := { games := [c4DoneGame], sessions := [c4Session 2] }

/-- A store in which u1's only session points at the in-progress game. -/
def c4StoreLive : Convex.Store := { games := [c4LiveGame], sessions := [c4Session 3] }

/-- The remaining wait the C7 claim requires the caller to be told —
`ceil((lastActionAt + cooldown) - now)` rendered in whole seconds.
This definition follows the specification's words, not the code, and
exists only to be compared with what the code reports. -/
def specCeilRemainingSeconds (nextAt now : Int) : Int :=
  (nextAt - now + 999) / 1000

/-- An in-progress game for the C7 witness. -/
def c7Game : Convex.Game :=
  { id := 4, creatorId := "erin", state := Convex.GState.inProgress, question := c4qEmpty }

/-- A session whose prompt timestamp is 0, for the C7 witness. -/
def c7Info : Convex.PlayerGameInfo :=
  { userId := "u2", gameId := 4, code := "", chatHistory := [],
    lastPromptedAt := some 0, lastTestedAt := some 0 }

/-- A server-action session whose last chat item is an AI item still
generating, for the C9 counterexample. -/
def c9Session : Actions.Session :=
  { userId := "u3", gameId := 9, code := "c",
    chatHistory :=
      [Actions.ChatItem.instructions "start",
       Actions.ChatItem.ai "" (Actions.ParsedCompletion.generating "")],
    lastPromptedAt := none }

/-- A Convex session whose last chat turn is an AI turn still
generating, for the C9 witness. -/
def c9InfoPending : Convex.PlayerGameInfo :=
  { userId := "u3", gameId := 3, code := "",
    chatHistory := [Convex.ChatMessage.ai "..." (Convex.Parsed.generating "")],
    lastPromptedAt := none, lastTestedAt := none }

/-- A Convex session whose last AI turn has resolved to an error, for
the C9 witness. -/
def c9InfoResolved : Convex.PlayerGameInfo :=
  { userId := "u3", gameId := 3, code := "",
    chatHistory := [Convex.ChatMessage.ai "done" (Convex.Parsed.error "boom")],
    lastPromptedAt := none, lastTestedAt := none }

/-- A 41-character instruction string, for the C10 witness. -/
def c10LongInstructions : String := "01234567890123456789012345678901234567890"

/-- C1: the claim says the game data returned by the get-game,
waiting-games and game-info queries never contains the hidden test
cases while the game is unfinished.  The code violates this:
`getWaitingGames` and `getGameInfoForUser` return the raw game document
with the full `question.test_cases` list — the hidden case included —
for a game still in `waiting-for-players`, while only `getGame` applies
`removeGameDetailsBasedOnState` (last conjunct), which shows the
stripping was intended. -/
theorem c1_hidden_test_cases_leak :
    c1Game.state ≠ Convex.GState.finished ∧
    (Convex.getWaitingGames [c1Game]).map (fun g => g.question.test_cases)
      = [some [c1PublicCase, c1HiddenCase]] ∧
    (Convex.getGameInfoForUser [c1Game] 1).map (fun g => g.question.test_cases)
      = some (some [c1PublicCase, c1HiddenCase]) ∧
    c1Game.question.examples = [c1PublicCase] ∧
    (Convex.getGame [c1Game] 1).map (fun g => g.question.test_cases)
      = some none :=
  ⟨by decide, rfl, rfl, rfl, rfl⟩

/-- C2 counterexample: the claim says a `success` execution result
whose value mismatches the expected output is downgraded to an error
with reason `AssertionError`.  In the grading step of
`submitCodeAction` it is not: for expected `4` and returned `5` the
stored row keeps status `success` with no reason — only `is_correct`
becomes `false`. -/
theorem c2_success_mismatch_not_downgraded :
    (Actions.gradeCase c2Case (some (ExecResult.success (Val.vnum 5)))).status
      = "success" ∧
    (Actions.gradeCase c2Case (some (ExecResult.success (Val.vnum 5)))).reason
      = none ∧
    (Actions.gradeCase c2Case (some (ExecResult.success (Val.vnum 5)))).is_correct
      = false :=
  ⟨rfl, rfl, rfl⟩

/-- C2 amended: in the Convex `runTests` grader a `success` result is
re-validated with JavaScript strict equality `===` — not deep
structural equality: two structurally equal composite values from the
two sides compare unequal (fourth conjunct) — and a mismatch is
downgraded to an error with reason `AssertionError` carrying the
stringified expected and actual values, while execution-level errors
pass through unchanged.  In the `submitCodeAction` grader the
re-validation is deep (`dequal`) but feeds only the per-case
`is_correct` flag: the status stays `success` on mismatch, and an
execution error passes through with the collaborator's reason
message. -/
theorem c2_grading_amended :
    (∀ (tc : TestCase) (e : ErrReason),
      Convex.checkResult tc (ExecResult.error e) = ExecResult.error e) ∧
    (∀ (tc : TestCase) (v : Val), jsStrictEq v tc.expected = true →
      Convex.checkResult tc (ExecResult.success v) = ExecResult.success v) ∧
    (∀ (tc : TestCase) (v : Val), jsStrictEq v tc.expected = false →
      Convex.checkResult tc (ExecResult.success v) =
        ExecResult.error ⟨"AssertionError",
          "Expected " ++ jsonStringify tc.expected ++ " but got " ++ jsonStringify v⟩) ∧
    (jsStrictEq (Val.varr [Val.vnum 2]) (Val.varr [Val.vnum 2]) = false ∧
      deepEq (Val.varr [Val.vnum 2]) (Val.varr [Val.vnum 2]) = true) ∧
    (∀ (tc : Actions.QTestCase) (v : Val),
      (Actions.gradeCase tc (some (ExecResult.success v))).status = "success" ∧
      (Actions.gradeCase tc (some (ExecResult.success v))).is_correct
        = deepEq tc.expectedOutput v) ∧
    (∀ (tc : Actions.QTestCase) (e : ErrReason),
      Actions.gradeCase tc (some (ExecResult.error e)) =
        { status := "error", result := none, reason := some e.message,
          is_correct := false }) := by
  refine ⟨fun tc e => rfl, fun tc v h => ?_, fun tc v h => ?_, ⟨rfl, rfl⟩,
    fun tc v => ⟨rfl, rfl⟩, fun tc e => rfl⟩
  · simp [Convex.checkResult, h]
  · simp [Convex.checkResult, h]

/-- Witness for the amended C2 theorem at concrete inputs: expected `4`
with returned `4` passes through; expected `4` with returned `5` is
downgraded to an `AssertionError` carrying both stringified values. -/
theorem c2_grading_amended_witness :
    Convex.checkResult ⟨[], Val.vnum 4⟩ (ExecResult.success (Val.vnum 4))
      = ExecResult.success (Val.vnum 4) ∧
    Convex.checkResult ⟨[], Val.vnum 4⟩ (ExecResult.success (Val.vnum 5))
      = ExecResult.error ⟨"AssertionError", "Expected 4 but got 5"⟩ := by
  constructor
  · exact c2_grading_amended.2.1 ⟨[], Val.vnum 4⟩ (Val.vnum 4) (by decide)
  · rw [c2_grading_amended.2.2.1 ⟨[], Val.vnum 4⟩ (Val.vnum 5) (by decide)]
    rfl

/-- C3: the set of test cases dispatched by `submitCodeAction` is
determined by the submission type — a test-run fetches exactly the
cases tagged public, a submission fetches the full list, hidden cases
included, and the dispatched argument lists follow that selection in
order. -/
theorem c3_mode_selects_test_cases :
    ∀ cases : List Actions.QTestCase,
      (∀ c, c ∈ Actions.selectTestCases "test-run" cases ↔
          c ∈ cases ∧ c.ctype = Actions.CaseType.publicCase) ∧
      Actions.selectTestCases "submission" cases = cases ∧
      Actions.dispatchedArgs "submission" cases = cases.map (fun c => c.args) := by
  intro cases
  refine ⟨fun c => ?_, rfl, rfl⟩
  simp [Actions.selectTestCases, List.mem_filter]

/-- C5: `advanceGameState` on a missing game or on a game in a terminal
state (`finished` or `cancelled`) writes nothing, schedules nothing and
raises no error (the handler is a total function that falls through
both transition branches), and a second advance on the unchanged store
is again a no-op — so advancing an already-finished game twice changes
nothing either time. -/
theorem c5_advance_terminal_noop :
    ∀ gOpt : Option Convex.Game,
      (gOpt = none ∨
        ∃ g, gOpt = some g ∧
          (g.state = Convex.GState.finished ∨ g.state = Convex.GState.cancelled)) →
      Convex.advanceGameState gOpt = (gOpt, false) ∧
      Convex.advanceGameState (Convex.advanceGameState gOpt).1 = (gOpt, false) := by
  rintro gOpt (rfl | ⟨g, rfl, h | h⟩)
  · simp [Convex.advanceGameState]
  · simp [Convex.advanceGameState, h]
  · simp [Convex.advanceGameState, h]

/-- Witness for C5: advancing a concrete finished game is a no-op, and
so is advancing the result again. -/
theorem c5_advance_terminal_noop_witness :
    Convex.advanceGameState (some c5Game) = (some c5Game, false) ∧
    Convex.advanceGameState (Convex.advanceGameState (some c5Game)).1
      = (some c5Game, false) :=
  c5_advance_terminal_noop (some c5Game) (Or.inr ⟨c5Game, rfl, Or.inl rfl⟩)

/-- Helper: the head of a `filterMap` is present exactly when some
element of the list maps to a value. -/
theorem filterMap_head_isSome_iff {α β : Type} (f : α → Option β) (l : List α) :
    ((l.filterMap f).head?).isSome = true ↔ ∃ a ∈ l, (f a).isSome = true := by
  induction l with
  | nil => simp
  | cons x xs ih =>
      rw [List.filterMap_cons]
      cases hx : f x with
      | none =>
          constructor
          · intro h
            rcases ih.mp h with ⟨a, ha, hfa⟩
            exact ⟨a, List.mem_cons_of_mem _ ha, hfa⟩
          · rintro ⟨a, ha, hfa⟩
            rcases List.mem_cons.mp ha with rfl | ha2
            · rw [hx] at hfa
              simp at hfa
            · exact ih.mpr ⟨a, ha2, hfa⟩
      | some b =>
          refine ⟨fun _ => ⟨x, List.mem_cons_self x xs, by simp [hx]⟩, fun _ => by simp⟩

/-- Helper: presence condition for one row of the server-action
active-game join. -/
theorem activeJoinRow_isSome_iff (games : List Actions.GameRow) (u : String)
    (s : Actions.SessionRow) :
    (Actions.activeJoinRow games u s).isSome = true ↔
      (s.userId = u ∧ ∃ g, Actions.findGame games s.gameId = some g ∧
        g.status ≠ Actions.Status.cancelled ∧ g.status ≠ Actions.Status.finished) := by
  unfold Actions.activeJoinRow
  by_cases hu : s.userId = u
  · cases hg : Actions.findGame games s.gameId with
    | none => simp [hu, hg]
    | some g =>
        by_cases hst : g.status ≠ Actions.Status.cancelled ∧ g.status ≠ Actions.Status.finished
        · simp [hu, hg, hst]
        · simp [hu, hg, hst]
  · simp [hu]

/-- Helper: the server-action join guard fires exactly when the user
has some session whose game exists and is non-terminal. -/
theorem actions_latest_isSome_iff (st : Actions.Store) (u : String) :
    (Actions.getLatestActiveGameForUser st u).isSome = true ↔
      ∃ s ∈ st.sessions, s.userId = u ∧
        ∃ g, Actions.findGame st.games s.gameId = some g ∧
          g.status ≠ Actions.Status.cancelled ∧ g.status ≠ Actions.Status.finished := by
  unfold Actions.getLatestActiveGameForUser
  rw [filterMap_head_isSome_iff]
  constructor
  · rintro ⟨s, hs, hrow⟩
    exact ⟨s, hs, (activeJoinRow_isSome_iff _ _ _).mp hrow⟩
  · rintro ⟨s, hs, hcond⟩
    exact ⟨s, hs, (activeJoinRow_isSome_iff _ _ _).mpr hcond⟩

/-- Helper: the Convex latest-active lookup returns nothing when every
session of the user points at a missing or terminal game. -/
theorem convex_latest_eq_none (st : Convex.Store) (u : String)
    (h : ∀ s ∈ st.sessions, s.userId = u →
      ∀ g, Convex.findGame st.games s.gameId = some g →
        Convex.isTerminal g.state = true) :
    Convex.getLatestActiveGameForUser st u = none := by
  unfold Convex.getLatestActiveGameForUser
  cases hfl : st.sessions.filter (fun s => s.userId = u) with
  | nil => simp [hfl]
  | cons s rest =>
      have hs : s ∈ st.sessions.filter (fun x => x.userId = u) := by
        rw [hfl]
        exact List.mem_cons_self _ _
      have hmem := (List.mem_filter.mp hs).1
      have hu : s.userId = u := by
        have h2 := (List.mem_filter.mp hs).2
        simpa using h2
      cases hg : Convex.findGame st.games s.gameId with
      | none => simp [hfl, hg]
      | some g =>
          have ht := h s hmem hu g hg
          simp [hfl, hg, ht]

/-- Helper: under the recency invariant (every non-latest session of the
user is terminal or dangling), any active session of the user makes the
Convex latest-active lookup return a game. -/
theorem convex_latest_isSome_of_active (st : Convex.Store) (u : String)
    (hInv : ∀ s ∈ (st.sessions.filter (fun x => x.userId = u)).tail,
      ∀ g, Convex.findGame st.games s.gameId = some g →
        Convex.isTerminal g.state = true)
    (hact : ∃ s ∈ st.sessions, s.userId = u ∧
      ∃ g, Convex.findGame st.games s.gameId = some g ∧
        Convex.isTerminal g.state = false) :
    (Convex.getLatestActiveGameForUser st u).isSome = true := by
  obtain ⟨s0, hs0mem, hs0u, g0, hg0, hg0act⟩ := hact
  have hs0f : s0 ∈ st.sessions.filter (fun x => x.userId = u) :=
    List.mem_filter.mpr ⟨hs0mem, by simpa using hs0u⟩
  unfold Convex.getLatestActiveGameForUser
  cases hfl : st.sessions.filter (fun x => x.userId = u) with
  | nil =>
      rw [hfl] at hs0f
      cases hs0f
  | cons s1 rest =>
      rw [hfl] at hs0f hInv
      rcases List.mem_cons.mp hs0f with rfl | h0rest
      · simp [hg0, hg0act]
      · have ht := hInv s0 (by simpa using h0rest) g0 hg0
        rw [ht] at hg0act
        cases hg0act

/-- C4: at most one active game per player.  For the server-action
backend the guard is exact on every store: `joinGameAction` fails with
the already-in-game error precisely when the player has some session
whose game exists and is neither finished nor cancelled, and otherwise
inserts exactly one new session.  For the Convex backend, which checks
only the player's most recent session: a join succeeds and creates a
session when every session of the player points at a terminal or
deleted game, and fails with the already-in-game error when some
session is active — given the recency invariant that every non-latest
session of the player is terminal or dangling, which is the only shape
the backend's own operations can produce (joins are blocked while the
latest is active, and terminal states are never left). -/
theorem c4_one_active_game_per_player :
    (∀ (st : Actions.Store) (u : String) (gj : Actions.GameRow),
      (Actions.joinGameAction st u gj = Except.error Err.alreadyInGame ↔
        ∃ s ∈ st.sessions, s.userId = u ∧
          ∃ g, Actions.findGame st.games s.gameId = some g ∧
            g.status ≠ Actions.Status.cancelled ∧ g.status ≠ Actions.Status.finished) ∧
      ((¬ ∃ s ∈ st.sessions, s.userId = u ∧
          ∃ g, Actions.findGame st.games s.gameId = some g ∧
            g.status ≠ Actions.Status.cancelled ∧ g.status ≠ Actions.Status.finished) →
        Actions.joinGameAction st u gj =
          Except.ok { games := st.games, sessions := ⟨u, gj.id⟩ :: st.sessions })) ∧
    (∀ (st : Convex.Store) (u : String) (choice : Nat) (fresh : Convex.Game),
      ((∀ s ∈ st.sessions, s.userId = u →
          ∀ g, Convex.findGame st.games s.gameId = some g →
            Convex.isTerminal g.state = true) →
        ∃ st2, Convex.joinGame st u choice fresh = Except.ok st2 ∧
          ∃ row, st2.sessions = row :: st.sessions ∧ row.userId = u) ∧
      ((∀ s ∈ (st.sessions.filter (fun x => x.userId = u)).tail,
          ∀ g, Convex.findGame st.games s.gameId = some g →
            Convex.isTerminal g.state = true) →
        (∃ s ∈ st.sessions, s.userId = u ∧
          ∃ g, Convex.findGame st.games s.gameId = some g ∧
            Convex.isTerminal g.state = false) →
        Convex.joinGame st u choice fresh = Except.error Err.alreadyInGame)) := by
  refine ⟨fun st u gj => ⟨?_, ?_⟩, fun st u choice fresh => ⟨?_, ?_⟩⟩
  · rw [← actions_latest_isSome_iff]
    by_cases h : (Actions.getLatestActiveGameForUser st u).isSome = true
    · simp [Actions.joinGameAction, h]
    · simp [Actions.joinGameAction, h]
  · intro hno
    have h : ¬ (Actions.getLatestActiveGameForUser st u).isSome = true := by
      rw [actions_latest_isSome_iff]
      exact hno
    simp [Actions.joinGameAction, h]
  · intro hterm
    have hn := convex_latest_eq_none st u hterm
    have hj : Convex.joinGame st u choice fresh = Except.ok
        { st with sessions :=
            { userId := u,
              gameId := (((Convex.getWaitingGames st.games).get? choice).getD
                (Convex.rawView fresh)).id,
              code := Convex.startingCode, chatHistory := [],
              lastPromptedAt := none, lastTestedAt := none } :: st.sessions } := by
      simp [Convex.joinGame, hn]
    exact ⟨_, hj, _, rfl, rfl⟩
  · intro hInv hact
    have h := convex_latest_isSome_of_active st u hInv hact
    simp [Convex.joinGame, h]

/-- Witness for C4 at concrete stores: a Convex join succeeds when the
player's sessions all point at terminal games, fails when one is
active, and a server-action join succeeds when the player's only
session points at a finished game. -/
theorem c4_one_active_game_per_player_witness :
    (∃ st2, Convex.joinGame c4StoreDone "u1" 0 c4LiveGame = Except.ok st2 ∧
      ∃ row, st2.sessions = row :: c4StoreDone.sessions ∧ row.userId = "u1") ∧
    Convex.joinGame c4StoreLive "u1" 0 c4LiveGame = Except.error Err.alreadyInGame ∧
    Actions.joinGameAction ⟨[⟨5, Actions.Status.finished⟩], [⟨"u1", 5⟩]⟩ "u1"
        ⟨9, Actions.Status.waitingForPlayers⟩
      = Except.ok ⟨[⟨5, Actions.Status.finished⟩], [⟨"u1", 9⟩, ⟨"u1", 5⟩]⟩ := by
  refine ⟨(c4_one_active_game_per_player.2 c4StoreDone "u1" 0 c4LiveGame).1 ?_,
    (c4_one_active_game_per_player.2 c4StoreLive "u1" 0 c4LiveGame).2 ?_ ?_,
    (c4_one_active_game_per_player.1 ⟨[⟨5, Actions.Status.finished⟩], [⟨"u1", 5⟩]⟩ "u1"
      ⟨9, Actions.Status.waitingForPlayers⟩).2 ?_⟩
  · intro s hs hu g hg
    simp [c4StoreDone] at hs
    subst hs
    simp [Convex.findGame, c4StoreDone, c4Session, c4DoneGame] at hg
    subst hg
    rfl
  · intro s hs g hg
    simp [c4StoreLive, c4Session] at hs
  · refine ⟨c4Session 3, by simp [c4StoreLive], rfl, c4LiveGame, ?_, rfl⟩
    simp [Convex.findGame, c4StoreLive, c4Session, c4LiveGame]
  · rintro ⟨s, hs, hu, g, hg, hc, hf⟩
    simp at hs
    subst hs
    simp [Actions.findGame] at hg
    subst hg
    exact hf rfl

/-- C6: both rate-limit gates are exact at the boundary.  The Convex
predicate (shared by the prompt gate of `sendMessageForPlayerInGame`
and the test gate of `runTests`, cooldown 10 s) rejects at
`lastActionAt + cooldown - 1` ms and accepts at exactly
`lastActionAt + cooldown` or with no recorded timestamp.  The
server-action prompt gate (inside `sendMessageInGameAction`) and
test/submit gate (`submitCodeRateGate`) behave identically for every
value of their cooldown constant. -/
theorem c6_rate_limit_boundary_exact :
    ∀ (l now timeout : Int) (u : String) (gid : Nat) (code : String)
      (hist : List Actions.ChatItem),
      Convex.canActFromTimestamp (some l) (l + Convex.promptRateLimitTimeMs - 1) = false ∧
      Convex.canActFromTimestamp (some l) (l + Convex.promptRateLimitTimeMs) = true ∧
      Convex.canActFromTimestamp none now = true ∧
      (∃ e, Convex.runTestsRateGate (some l) (l + Convex.promptRateLimitTimeMs - 1)
        = Except.error (Err.rateLimited e)) ∧
      Convex.runTestsRateGate (some l) (l + Convex.promptRateLimitTimeMs) = Except.ok () ∧
      Convex.runTestsRateGate none now = Except.ok () ∧
      Actions.sendMessageInGameAction "fix"
          (some (⟨u, gid, code, hist, some l⟩, Actions.Status.inProgress))
          (l + timeout - 1) timeout
        = Except.error (Err.rateLimited 1) ∧
      (∃ out, Actions.sendMessageInGameAction "fix"
          (some (⟨u, gid, code, hist, some l⟩, Actions.Status.inProgress))
          (l + timeout) timeout = Except.ok out) ∧
      (∃ out, Actions.sendMessageInGameAction "fix"
          (some (⟨u, gid, code, hist, none⟩, Actions.Status.inProgress))
          now timeout = Except.ok out) ∧
      Actions.submitCodeRateGate (some l) (l + timeout - 1) timeout
        = Except.error (Err.rateLimited 1) ∧
      Actions.submitCodeRateGate (some l) (l + timeout) timeout = Except.ok () ∧
      Actions.submitCodeRateGate none now timeout = Except.ok () := by
  intro l now timeout u gid code hist
  have hv : Actions.instructionsValid "fix" = true := rfl
  have hlt : l + timeout - 1 - l < timeout := by omega
  have hge : ¬ (l + timeout - l < timeout) := by omega
  have hrej : Convex.canActFromTimestamp (some l) (l + Convex.promptRateLimitTimeMs - 1)
      = false := by
    simp [Convex.canActFromTimestamp, Convex.promptRateLimitTimeMs]
  have hacc : Convex.canActFromTimestamp (some l) (l + Convex.promptRateLimitTimeMs)
      = true := by
    simp [Convex.canActFromTimestamp]
  refine ⟨hrej, hacc, rfl,
    ⟨Convex.intervalSeconds (l + Convex.promptRateLimitTimeMs - 1)
      (l + Convex.promptRateLimitTimeMs), ?_⟩, ?_, rfl, ?_,
    ⟨{ chatHistory := hist ++ [Actions.ChatItem.instructions "fix",
        Actions.ChatItem.ai "" (Actions.ParsedCompletion.generating "")],
       lastPromptedAt := some (l + timeout) }, ?_⟩,
    ⟨{ chatHistory := hist ++ [Actions.ChatItem.instructions "fix",
        Actions.ChatItem.ai "" (Actions.ParsedCompletion.generating "")],
       lastPromptedAt := some now }, ?_⟩, ?_, ?_, rfl⟩
  · simp [Convex.runTestsRateGate, hrej]
  · simp [Convex.runTestsRateGate, hacc]
  · have h1 : timeout - (l + timeout - 1 - l) = 1 := by omega
    simp [Actions.sendMessageInGameAction, hv, hlt, h1]
  · simp [Actions.sendMessageInGameAction, hv, hge]
  · simp [Actions.sendMessageInGameAction, hv]
  · have h1 : timeout - (l + timeout - 1 - l) = 1 := by omega
    simp [Actions.submitCodeRateGate, hlt, h1]
  · simp [Actions.submitCodeRateGate, hge]

/-- C7 counterexample: with `lastActionAt = 0`, a 10000 ms cooldown and
`now = 9500`, 500 ms remain, so the claim requires the caller to be
told `ceil` of that, 1 whole second.  The Convex `runTests` gate
reports 0 (date-fns `intervalToDuration` truncates the interval to
whole seconds) and the server-action submit gate reports 500, the raw
remainder in milliseconds — neither reports the claimed 1. -/
theorem c7_wait_not_ceil_seconds :
    Convex.runTestsRateGate (some 0) 9500 = Except.error (Err.rateLimited 0) ∧
    Actions.submitCodeRateGate (some 0) 9500 10000
      = Except.error (Err.rateLimited 500) ∧
    specCeilRemainingSeconds (0 + Convex.promptRateLimitTimeMs) 9500 = 1 ∧
    (0 : Int) ≠ 1 ∧ (500 : Int) ≠ 1 :=
  ⟨rfl, rfl, by decide, by decide, by decide⟩

/-- C7 amended: on a rate-limited rejection the Convex operations
report the remaining wait rounded down to whole seconds,
`(lastActionAt + cooldown - now) / 1000` — which equals the claimed
ceiling only at exact-second boundaries and is one less otherwise —
while the server-action operations report the exact remaining wait in
milliseconds, `(lastActionAt + cooldown) - now`. -/
theorem c7_wait_reporting_amended :
    (∀ l now : Int, Convex.canActFromTimestamp (some l) now = false → l ≤ now →
      Convex.runTestsRateGate (some l) now =
        Except.error
          (Err.rateLimited ((l + Convex.promptRateLimitTimeMs - now) / 1000)) ∧
      (l + Convex.promptRateLimitTimeMs - now) / 1000 =
        specCeilRemainingSeconds (l + Convex.promptRateLimitTimeMs) now -
          (if (l + Convex.promptRateLimitTimeMs - now) % 1000 = 0 then 0 else 1)) ∧
    (∀ (game : Convex.Game) (info : Convex.PlayerGameInfo) (l now : Int) (msg : String),
      Convex.conflictPending info.chatHistory = false →
      info.lastPromptedAt = some l →
      Convex.canActFromTimestamp (some l) now = false →
      Convex.sendMessageForPlayerInGame (some game) (some info) msg now =
        Except.error
          (Err.rateLimited
            (Convex.intervalSeconds now (l + Convex.promptRateLimitTimeMs)))) ∧
    (∀ l now timeout : Int, now - l < timeout →
      Actions.submitCodeRateGate (some l) now timeout =
        Except.error (Err.rateLimited (l + timeout - now))) := by
  refine ⟨fun l now h hle => ?_, fun game info l now msg hconf hlast h => ?_,
    fun l now timeout h => ?_⟩
  · have hb : ¬ now > l + Convex.promptRateLimitTimeMs ∧
        ¬ now = l + Convex.promptRateLimitTimeMs := by
      simpa [Convex.canActFromTimestamp] using h
    have hlt : now < l + 10000 := by
      have := hb.1
      have := hb.2
      simp [Convex.promptRateLimitTimeMs] at *
      omega
    have hv : Convex.intervalSeconds now (l + Convex.promptRateLimitTimeMs) =
        (l + Convex.promptRateLimitTimeMs - now) / 1000 := by
      simp only [Convex.intervalSeconds, Convex.promptRateLimitTimeMs] at *
      omega
    constructor
    · simp [Convex.runTestsRateGate, h, hv]
    · simp only [specCeilRemainingSeconds, Convex.promptRateLimitTimeMs] at *
      by_cases hm : (l + 10000 - now) % 1000 = 0
      · rw [if_pos hm]
        omega
      · rw [if_neg hm]
        omega
  · simp [Convex.sendMessageForPlayerInGame, hconf, hlast, h]
  · have hval : timeout - (now - l) = l + timeout - now := by omega
    simp [Actions.submitCodeRateGate, h, hval]

/-- Witness for the amended C7 theorem at a concrete rejection: prompt
timestamp 0, now 9500 — the Convex gates report the floored seconds and
the server-action gate the exact milliseconds. -/
theorem c7_wait_reporting_amended_witness :
    Convex.runTestsRateGate (some 0) 9500 =
      Except.error
        (Err.rateLimited ((0 + Convex.promptRateLimitTimeMs - 9500) / 1000)) ∧
    Convex.sendMessageForPlayerInGame (some c7Game) (some c7Info) "go" 9500 =
      Except.error
        (Err.rateLimited
          (Convex.intervalSeconds 9500 (0 + Convex.promptRateLimitTimeMs))) ∧
    Actions.submitCodeRateGate (some 0) 9500 10000 =
      Except.error (Err.rateLimited (0 + 10000 - 9500)) :=
  ⟨(c7_wait_reporting_amended.1 0 9500 (by decide) (by decide)).1,
   c7_wait_reporting_amended.2.1 c7Game c7Info 0 9500 "go" rfl rfl (by decide),
   c7_wait_reporting_amended.2.2 0 9500 10000 (by decide)⟩

/-- C8 counterexample: the claim says extraction takes the text up to
the first close marker after the open marker, or to end-of-text if no
close marker follows.  In `"</code><code>x"` the open marker sits at
index 7 and no close marker occurs after it, so the claim demands the
trailing `"x"`; `extractCode` instead uses the first `</code>` of the
whole string — at index 0, before the open marker — and returns the
empty string. -/
theorem c8_close_marker_before_open :
    Convex.extractCode "</code><code>x".data = some "".data ∧
    Convex.strIndexOf Convex.openTag "</code><code>x".data = some 7 ∧
    Convex.strIndexOf Convex.closeTag
        ("</code><code>x".data.drop (7 + Convex.openTag.length)) = none ∧
    "</code><code>x".data.drop (7 + Convex.openTag.length) = "x".data ∧
    some "".data ≠ some "x".data := by
  refine ⟨by decide, by decide, by decide, by decide, by decide⟩

/-- C8 amended: extraction finds the first open marker (none means no
extracted code, which on a success signal resolves the turn to the
no-code-found error rather than success); the close index is the first
`</code>` anywhere in the completion, not the first one after the open
marker — when it lies at or before the end of the open marker the
extracted code is empty — and end-of-text is used only when no close
marker occurs anywhere; the slice is trimmed.  On completions whose
first close marker does follow the open marker this agrees with the
claim, as on the specification's own examples (final conjuncts). -/
theorem c8_extraction_amended :
    (∀ content : List Char, Convex.strIndexOf Convex.openTag content = none →
      Convex.extractCode content = none ∧
      Convex.resolveSuccessSignal content
        = Convex.Parsed.error "Could not find code in AI response") ∧
    (∀ (content : List Char) (i : Nat),
      Convex.strIndexOf Convex.openTag content = some i →
      Convex.strIndexOf Convex.closeTag content = none →
      Convex.extractCode content
        = some (Convex.trimChars (content.drop (i + Convex.openTag.length)))) ∧
    (∀ (content : List Char) (i j : Nat),
      Convex.strIndexOf Convex.openTag content = some i →
      Convex.strIndexOf Convex.closeTag content = some j →
      Convex.extractCode content
        = some (Convex.trimChars ((content.take j).drop (i + Convex.openTag.length))) ∧
      (j ≤ i + Convex.openTag.length → Convex.extractCode content = some [])) ∧
    (∀ (content c : List Char),
      Convex.extractCode content = some c →
      Convex.resolveSuccessSignal content = Convex.Parsed.success (String.mk c)) ∧
    Convex.extractCode "blah <code>def f(): pass</code> blah".data
      = some "def f(): pass".data ∧
    Convex.extractCode "<code>abc def".data = some "abc def".data ∧
    Convex.extractCode "no markers here".data = none := by
  refine ⟨fun content h => ?_, fun content i h1 h2 => ?_,
    fun content i j h1 h2 => ⟨?_, fun hle => ?_⟩, fun content c h => ?_,
    by decide, by decide, by decide⟩
  · exact ⟨by simp [Convex.extractCode, h],
      by simp [Convex.resolveSuccessSignal, Convex.extractCode, h]⟩
  · simp [Convex.extractCode, h1, h2, Convex.jsSlice]
  · simp [Convex.extractCode, h1, h2, Convex.jsSlice]
  · have he : (content.take j).drop (i + Convex.openTag.length) = [] := by
      apply List.drop_eq_nil_of_le
      rw [List.length_take]
      exact le_trans (Nat.min_le_left _ _) hle
    simp [Convex.extractCode, h1, h2, Convex.jsSlice, he, Convex.trimChars]
  · simp [Convex.resolveSuccessSignal, h]

/-- Witness for the amended C8 theorem at concrete completions: no
markers yield no code and the error turn; an unclosed open marker
yields the trimmed tail; the specification's example yields the text
between the markers. -/
theorem c8_extraction_amended_witness :
    Convex.extractCode "no markers here".data = none ∧
    Convex.resolveSuccessSignal "no markers here".data
      = Convex.Parsed.error "Could not find code in AI response" ∧
    Convex.extractCode "<code>abc def".data
      = some (Convex.trimChars ("<code>abc def".data.drop (0 + Convex.openTag.length))) ∧
    Convex.extractCode "blah <code>def f(): pass</code> blah".data
      = some (Convex.trimChars
          (("blah <code>def f(): pass</code> blah".data.take 24).drop
            (5 + Convex.openTag.length))) :=
  ⟨(c8_extraction_amended.1 "no markers here".data (by decide)).1,
   (c8_extraction_amended.1 "no markers here".data (by decide)).2,
   c8_extraction_amended.2.1 "<code>abc def".data 0 (by decide) (by decide),
   (c8_extraction_amended.2.2.1 "blah <code>def f(): pass</code> blah".data 5 24
     (by decide) (by decide)).1⟩

/-- C9 counterexample: the claim says a send while the session's last
AI turn is still generating fails with a conflict and appends nothing.
The server-action implementation has no such check: with the last chat
item an AI item in `generating` state, the game in progress and the
rate limit clear, `sendMessageInGameAction` succeeds and appends the
new instruction and a second placeholder. -/
theorem c9_actions_no_conflict_check :
    c9Session.chatHistory.getLast?
      = some (Actions.ChatItem.ai "" (Actions.ParsedCompletion.generating "")) ∧
    Actions.sendMessageInGameAction "more" (some (c9Session, Actions.Status.inProgress))
        0 10000
      = Except.ok
          { chatHistory :=
              c9Session.chatHistory ++
                [Actions.ChatItem.instructions "more",
                 Actions.ChatItem.ai "" (Actions.ParsedCompletion.generating "")],
            lastPromptedAt := some 0 } :=
  ⟨rfl, rfl⟩

/-- C9 amended: the Convex send-message serializes prompting — it fails
when the last chat turn is a pending user turn or a still-generating AI
turn (second conjunct characterizes exactly those), accepts once the
last AI turn has resolved (a resolved last turn is never a conflict,
and with the game in progress and the rate limit clear the message and
placeholder are appended) — while the server-action send-message
performs no conflict check at all: whatever the chat history, it
accepts subject only to the schema, in-progress and rate-limit
checks. -/
theorem c9_conflict_amended :
    (∀ (game : Convex.Game) (info : Convex.PlayerGameInfo) (msg : String) (now : Int),
      Convex.conflictPending info.chatHistory = true →
      Convex.sendMessageForPlayerInGame (some game) (some info) msg now
        = Except.error Err.conflictPendingAI) ∧
    (∀ history : List Convex.ChatMessage,
      Convex.conflictPending history = true ↔
        (∃ m, history.getLast? = some (Convex.ChatMessage.user m)) ∨
        (∃ content mc, history.getLast?
          = some (Convex.ChatMessage.ai content (Convex.Parsed.generating mc)))) ∧
    (∀ (hist : List Convex.ChatMessage) (content code : String),
      Convex.conflictPending
          (hist ++ [Convex.ChatMessage.ai content (Convex.Parsed.success code)]) = false ∧
      Convex.conflictPending
          (hist ++ [Convex.ChatMessage.ai content (Convex.Parsed.error code)]) = false) ∧
    (∀ (game : Convex.Game) (info : Convex.PlayerGameInfo) (msg : String) (now : Int),
      game.state = Convex.GState.inProgress →
      Convex.conflictPending info.chatHistory = false →
      Convex.canActFromTimestamp info.lastPromptedAt now = true →
      Convex.sendMessageForPlayerInGame (some game) (some info) msg now
        = Except.ok
            { chatHistory :=
                info.chatHistory ++
                  [Convex.ChatMessage.user msg,
                   Convex.ChatMessage.ai "Generating..." (Convex.Parsed.generating "")],
              lastPromptedAt := some now }) ∧
    (∀ (session : Actions.Session) (instr : String) (now timeout : Int),
      Actions.instructionsValid instr = true →
      session.lastPromptedAt = none →
      Actions.sendMessageInGameAction instr (some (session, Actions.Status.inProgress))
          now timeout
        = Except.ok
            { chatHistory :=
                session.chatHistory ++
                  [Actions.ChatItem.instructions instr,
                   Actions.ChatItem.ai "" (Actions.ParsedCompletion.generating "")],
              lastPromptedAt := some now }) := by
  refine ⟨fun game info msg now h => ?_, fun history => ?_,
    fun hist content code => ⟨?_, ?_⟩, fun game info msg now hst hc hr => ?_,
    fun session instr now timeout hv hl => ?_⟩
  · simp [Convex.sendMessageForPlayerInGame, h]
  · cases h : history.getLast? with
    | none => simp [Convex.conflictPending, h]
    | some m =>
        cases m with
        | user s => simp [Convex.conflictPending, h]
        | ai content p => cases p <;> simp [Convex.conflictPending, h]
  · simp [Convex.conflictPending, List.getLast?_concat]
  · simp [Convex.conflictPending, List.getLast?_concat]
  · simp [Convex.sendMessageForPlayerInGame, hc, hr, hst]
  · simp [Actions.sendMessageInGameAction, hv, hl]

/-- Witness for the amended C9 theorem at concrete sessions: a Convex
send with a generating last turn fails with the conflict error; after
the turn resolved to an error a send succeeds; and a server-action send
with a generating last item succeeds regardless. -/
theorem c9_conflict_amended_witness :
    Convex.sendMessageForPlayerInGame (some c4LiveGame) (some c9InfoPending) "hi" 5
      = Except.error Err.conflictPendingAI ∧
    Convex.sendMessageForPlayerInGame (some c4LiveGame) (some c9InfoResolved) "hi" 5
      = Except.ok
          { chatHistory :=
              c9InfoResolved.chatHistory ++
                [Convex.ChatMessage.user "hi",
                 Convex.ChatMessage.ai "Generating..." (Convex.Parsed.generating "")],
            lastPromptedAt := some 5 } ∧
    Actions.sendMessageInGameAction "more" (some (c9Session, Actions.Status.inProgress))
        0 10000
      = Except.ok
          { chatHistory :=
              c9Session.chatHistory ++
                [Actions.ChatItem.instructions "more",
                 Actions.ChatItem.ai "" (Actions.ParsedCompletion.generating "")],
            lastPromptedAt := some 0 } :=
  ⟨c9_conflict_amended.1 c4LiveGame c9InfoPending "hi" 5 rfl,
   c9_conflict_amended.2.2.2.1 c4LiveGame c9InfoResolved "hi" 5 rfl rfl rfl,
   c9_conflict_amended.2.2.2.2 c9Session "more" 0 10000 rfl rfl⟩

/-- C10: the zod schema of `sendMessageInGameAction` rejects exactly
the empty instruction and any instruction longer than 40 characters,
and it does so before the action body runs: a rejected instruction
yields the validation error whatever the store contents, clock or
cooldown — the outcome is independent of all of them. -/
theorem c10_instructions_length_gate :
    (∀ instructions : String,
      Actions.instructionsValid instructions = false ↔
        instructions.length = 0 ∨ 40 < instructions.length) ∧
    (∀ (instructions : String) (s1 s2 : Option (Actions.Session × Actions.Status))
        (n1 n2 t1 t2 : Int),
      Actions.instructionsValid instructions = false →
      Actions.sendMessageInGameAction instructions s1 n1 t1
          = Except.error Err.validationFailed ∧
      Actions.sendMessageInGameAction instructions s1 n1 t1
          = Actions.sendMessageInGameAction instructions s2 n2 t2) := by
  refine ⟨fun instructions => ?_, fun instructions s1 s2 n1 n2 t1 t2 h => ?_⟩
  · simp [Actions.instructionsValid]
    omega
  · constructor
    · simp [Actions.sendMessageInGameAction, h]
    · simp [Actions.sendMessageInGameAction, h]

/-- Witness for C10 at concrete instructions: the empty string and a
41-character string are rejected with the validation error before any
session lookup, with no session loaded at all. -/
theorem c10_instructions_length_gate_witness :
    Actions.sendMessageInGameAction "" none 0 0
      = Except.error Err.validationFailed ∧
    Actions.sendMessageInGameAction c10LongInstructions none 0 0
      = Except.error Err.validationFailed :=
  ⟨(c10_instructions_length_gate.2 "" none none 0 0 0 0 (by decide)).1,
   (c10_instructions_length_gate.2 c10LongInstructions none none 0 0 0 0 (by decide)).1⟩

/-- Supporting fact: a game found by id carries that id. -/
theorem findGame_some_id (games : List Convex.Game) (i : Nat) (g : Convex.Game)
    (h : Convex.findGame games i = some g) : g.id = i := by
  have h2 := List.find?_some h
  simpa using h2

/-- Supporting fact: looking a game up after a state patch finds the
same document with only its state possibly rewritten. -/
theorem findGame_patchGameState (games : List Convex.Game) (gid : Nat)
    (st0 : Convex.GState) (i : Nat) :
    Convex.findGame (Convex.patchGameState games gid st0) i =
      (Convex.findGame games i).map
        (fun g => if g.id = gid then { g with state := st0 } else g) := by
  unfold Convex.findGame Convex.patchGameState
  rw [List.find?_map]
  have hp : ((fun g : Convex.Game => decide (g.id = i)) ∘
      (fun g => if g.id = gid then { g with state := st0 } else g))
      = (fun g : Convex.Game => decide (g.id = i)) := by
    funext g
    by_cases h : g.id = gid <;> simp [h]
  rw [hp]

/-- Supporting fact: looking a game up after the game's deletion finds
nothing, and other lookups are unchanged. -/
theorem findGame_deleteGame (games : List Convex.Game) (gid i : Nat) :
    Convex.findGame (games.filter (fun g => ¬ g.id = gid)) i
      = if i = gid then none else Convex.findGame games i := by
  induction games with
  | nil => simp [Convex.findGame]
  | cons g t ih =>
      by_cases hq : g.id = gid
      · have hfil : (g :: t).filter (fun x => ¬ x.id = gid)
            = t.filter (fun x => ¬ x.id = gid) := by
          simp [List.filter_cons, hq]
        rw [hfil, ih]
        by_cases hi : i = gid
        · simp [hi]
        · have hpa : ¬ ((fun x : Convex.Game => decide (x.id = i)) g = true) := by
            simp only [decide_eq_true_eq]
            intro h2
            exact hi (h2 ▸ hq)
          have hskip : Convex.findGame (g :: t) i = Convex.findGame t i := by
            unfold Convex.findGame
            exact List.find?_cons_of_neg _ hpa
          rw [if_neg hi, if_neg hi, hskip]
      · have hfil : (g :: t).filter (fun x => ¬ x.id = gid)
            = g :: t.filter (fun x => ¬ x.id = gid) := by
          simp [List.filter_cons, hq]
        rw [hfil]
        by_cases hgi : g.id = i
        · have hi : ¬ i = gid := fun h => hq (by rw [hgi, h])
          unfold Convex.findGame
          rw [List.find?_cons_of_pos, if_neg hi, List.find?_cons_of_pos] <;> simp [hgi]
        · unfold Convex.findGame
          rw [List.find?_cons_of_neg, List.find?_cons_of_neg]
          · exact ih
          · simpa using hgi
          · simpa using hgi

/-- Supporting fact: the tail of a sublist is contained in the tail of
the larger list. -/
theorem tail_subset_of_sublist {α : Type} {l m : List α} (h : List.Sublist l m) :
    l.tail ⊆ m.tail := by
  induction h with
  | slnil => simp
  | cons a h ih => exact fun x hx => h.subset (List.tail_subset _ hx)
  | cons₂ a h ih => exact fun x hx => h.subset hx

/-- Supporting fact: when the latest-active lookup returns nothing, the
user's most recent session (if any) is inert. -/
theorem guard_head_inert (st : Convex.Store) (u : String)
    (h : Convex.getLatestActiveGameForUser st u = none)
    (s : Convex.PlayerGameInfo)
    (hs : (st.sessions.filter (fun x => x.userId = u)).head? = some s) :
    Convex.sessionInert st s := by
  intro g hg
  unfold Convex.getLatestActiveGameForUser at h
  simp only [hs, hg] at h
  cases hterm : Convex.isTerminal g.state with
  | true => rfl
  | false =>
      rw [hterm] at h
      simp at h

/-- Supporting fact: a successful join preserves the recency invariant
— the join guard certifies the previously-latest session inert, the
invariant covers the older ones, and the new session becomes the
latest. -/
theorem recencyInv_joinGame (st : Convex.Store) (u : String) (choice : Nat)
    (fresh : Convex.Game) (st2 : Convex.Store)
    (hok : Convex.joinGame st u choice fresh = Except.ok st2)
    (hinv : Convex.RecencyInv st) : Convex.RecencyInv st2 := by
  unfold Convex.joinGame at hok
  by_cases hg : (Convex.getLatestActiveGameForUser st u).isSome = true
  · rw [if_pos hg] at hok
    cases hok
  · rw [if_neg hg] at hok
    injection hok with h2
    subst h2
    have hnone : Convex.getLatestActiveGameForUser st u = none :=
      Option.not_isSome_iff_eq_none.mp hg
    intro u2 s hs
    by_cases hu : u = u2
    · subst hu
      have hfil :
          ({ userId := u,
             gameId := (((Convex.getWaitingGames st.games).get? choice).getD
               (Convex.rawView fresh)).id,
             code := Convex.startingCode, chatHistory := [],
             lastPromptedAt := none, lastTestedAt := none } ::
             st.sessions).filter (fun x => x.userId = u)
            = { userId := u,
                gameId := (((Convex.getWaitingGames st.games).get? choice).getD
                  (Convex.rawView fresh)).id,
                code := Convex.startingCode, chatHistory := [],
                lastPromptedAt := none, lastTestedAt := none } ::
              st.sessions.filter (fun x => x.userId = u) := by
        simp [List.filter_cons]
      rw [hfil] at hs
      cases hfl : st.sessions.filter (fun x => x.userId = u) with
      | nil =>
          rw [hfl] at hs
          simp at hs
      | cons a t =>
          rw [hfl] at hs
          simp only [List.tail_cons] at hs
          rcases List.mem_cons.mp hs with rfl | hmem
          · exact guard_head_inert st u hnone s (by rw [hfl]; rfl)
          · exact hinv u s (by rw [hfl]; exact hmem)
    · have hfil :
          ({ userId := u,
             gameId := (((Convex.getWaitingGames st.games).get? choice).getD
               (Convex.rawView fresh)).id,
             code := Convex.startingCode, chatHistory := [],
             lastPromptedAt := none, lastTestedAt := none } ::
             st.sessions).filter (fun x => x.userId = u2)
            = st.sessions.filter (fun x => x.userId = u2) := by
        simp [List.filter_cons, hu]
      rw [hfil] at hs
      exact hinv u2 s hs

/-- Supporting fact: a lifecycle advance preserves the recency
invariant — it never moves a game from a terminal state to an active
one (the patch to `in-progress` applies only to a game the handler just
observed in `waiting-for-players`). -/
theorem recencyInv_advanceStore (st : Convex.Store) (gid : Nat)
    (hinv : Convex.RecencyInv st) : Convex.RecencyInv (Convex.advanceStore st gid).1 := by
  cases hf : Convex.findGame st.games gid with
  | none =>
      have he : Convex.advanceStore st gid = (st, false) := by
        unfold Convex.advanceStore
        rw [hf]
      rw [he]
      exact hinv
  | some g0 =>
      obtain ⟨gi, gc, gs, gq⟩ := g0
      have hpatch : ∀ st0 : Convex.GState,
          Convex.isTerminal st0 = true ∨ gs = Convex.GState.waitingForPlayers →
          Convex.RecencyInv
            { st with games := Convex.patchGameState st.games gid st0 } := by
        intro st0 hok2
        intro u s hs g2 hg2
        have hs2 : s ∈ (st.sessions.filter (fun x => x.userId = u)).tail := hs
        have hg2b : Convex.findGame (Convex.patchGameState st.games gid st0) s.gameId
            = some g2 := hg2
        rw [findGame_patchGameState] at hg2b
        rcases Option.map_eq_some'.mp hg2b with ⟨g, hg, hfg⟩
        have ht := hinv u s hs2 g hg
        by_cases hid : g.id = gid
        · rw [if_pos hid] at hfg
          rcases hok2 with hterm | hwait
          · rw [← hfg]
            exact hterm
          · have hgi : g.id = s.gameId := findGame_some_id _ _ _ hg
            have hsg : s.gameId = gid := by rw [← hgi, hid]
            rw [hsg, hf] at hg
            injection hg with hgg
            rw [← hgg] at ht
            rw [hwait] at ht
            simp [Convex.isTerminal] at ht
        · rw [if_neg hid] at hfg
          rw [← hfg]
          exact ht
      cases gs with
      | waitingForPlayers =>
          have he : (Convex.advanceStore st gid).1
              = { st with games :=
                    Convex.patchGameState st.games gid Convex.GState.inProgress } := by
            unfold Convex.advanceStore
            rw [hf]
          rw [he]
          exact hpatch Convex.GState.inProgress (Or.inr rfl)
      | inProgress =>
          have he : (Convex.advanceStore st gid).1
              = { st with games :=
                    Convex.patchGameState st.games gid Convex.GState.finished } := by
            unfold Convex.advanceStore
            rw [hf]
          rw [he]
          exact hpatch Convex.GState.finished (Or.inl rfl)
      | finished =>
          have he : (Convex.advanceStore st gid).1 = st := by
            unfold Convex.advanceStore
            rw [hf]
          rw [he]
          exact hinv
      | cancelled =>
          have he : (Convex.advanceStore st gid).1 = st := by
            unfold Convex.advanceStore
            rw [hf]
          rw [he]
          exact hinv

/-- Supporting fact: a successful cancellation preserves the recency
invariant — the patched game becomes terminal. -/
theorem recencyInv_cancelGame (st : Convex.Store) (gid : Nat) (uid : String)
    (st2 : Convex.Store) (hok : Convex.cancelGame st gid uid = Except.ok st2)
    (hinv : Convex.RecencyInv st) : Convex.RecencyInv st2 := by
  unfold Convex.cancelGame at hok
  cases hf : Convex.findGame st.games gid with
  | none =>
      rw [hf] at hok
      simp at hok
  | some g0 =>
      rw [hf] at hok
      dsimp only at hok
      by_cases hc : g0.creatorId ≠ uid
      · rw [if_pos hc] at hok
        simp at hok
      · rw [if_neg hc] at hok
        by_cases hw : g0.state ≠ Convex.GState.waitingForPlayers
        · rw [if_pos hw] at hok
          simp at hok
        · rw [if_neg hw] at hok
          injection hok with h2
          subst h2
          intro u s hs g2 hg2
          have hs2 : s ∈ (st.sessions.filter (fun x => x.userId = u)).tail := hs
          have hg2b : Convex.findGame
              (Convex.patchGameState st.games gid Convex.GState.cancelled) s.gameId
              = some g2 := hg2
          rw [findGame_patchGameState] at hg2b
          rcases Option.map_eq_some'.mp hg2b with ⟨g, hg, hfg⟩
          have ht := hinv u s hs2 g hg
          by_cases hid : g.id = gid
          · rw [if_pos hid] at hfg
            rw [← hfg]
            rfl
          · rw [if_neg hid] at hfg
            rw [← hfg]
            exact ht

/-- Supporting fact: leaving a game preserves the recency invariant —
sessions only disappear (a sublist of each user's list remains, in
order) and games only disappear. -/
theorem recencyInv_leaveGame (st : Convex.Store) (gid : Nat) (uid : String)
    (st2 : Convex.Store) (hok : Convex.leaveGame st gid uid = Except.ok st2)
    (hinv : Convex.RecencyInv st) : Convex.RecencyInv st2 := by
  unfold Convex.leaveGame at hok
  cases hfind : st.sessions.find? (fun s => s.userId = uid ∧ s.gameId = gid) with
  | none =>
      rw [hfind] at hok
      cases hok
  | some srow =>
      rw [hfind] at hok
      dsimp only at hok
      have hsub : ∀ u : String,
          List.Sublist
            ((st.sessions.eraseP
              (fun s => s.userId = uid ∧ s.gameId = gid)).filter
                (fun x => x.userId = u))
            (st.sessions.filter (fun x => x.userId = u)) :=
        fun u => (List.eraseP_sublist _).filter _
      by_cases hemp :
          ((st.sessions.eraseP (fun s => s.userId = uid ∧ s.gameId = gid)).filter
            (fun s => s.gameId = gid)).isEmpty = true
      · rw [if_pos hemp] at hok
        injection hok with h2
        subst h2
        intro u s hs g2 hg2
        have hs2 : s ∈ (st.sessions.filter (fun x => x.userId = u)).tail :=
          tail_subset_of_sublist (hsub u) hs
        have ht := hinv u s hs2
        rw [findGame_deleteGame] at hg2
        by_cases hi : s.gameId = gid
        · rw [if_pos hi] at hg2
          cases hg2
        · rw [if_neg hi] at hg2
          exact ht g2 hg2
      · rw [if_neg hemp] at hok
        injection hok with h2
        subst h2
        intro u s hs g2 hg2
        have hs2 : s ∈ (st.sessions.filter (fun x => x.userId = u)).tail :=
          tail_subset_of_sublist (hsub u) hs
        exact hinv u s hs2 g2 hg2

/-- Supporting fact: on any store satisfying the recency invariant, a
join attempt while the player has any session whose game is neither
finished nor cancelled is rejected as already-in-game — so the
single-latest-session check of the Convex matchmaker enforces the
per-player invariant on every store its own operations can produce. -/
theorem recencyInv_blocks_join (st : Convex.Store) (u : String) (choice : Nat)
    (fresh : Convex.Game) (hinv : Convex.RecencyInv st)
    (hact : ∃ s ∈ st.sessions, s.userId = u ∧
      ∃ g, Convex.findGame st.games s.gameId = some g ∧
        Convex.isTerminal g.state = false) :
    Convex.joinGame st u choice fresh = Except.error Err.alreadyInGame := by
  have h := convex_latest_isSome_of_active st u (hinv u) hact
  simp [Convex.joinGame, h]

end AiRacer
